import Mathlib

/-!
Verification of the kaizen documentation-structure tooling.

Shallow embedding of the two core scripts of the repository:

* `plugins/doc-structure/scripts/classify_dirs.py` — directory scanner,
  three-strategy classifier, doc-type estimator and top-directory aggregator;
* `plugins/kaizen/skills/review/scripts/resolve_review_context.py` —
  the `.doc_structure.yaml` parser, pattern matcher, type detection and
  feature discovery.

Python strings are modelled as Lean `String`s; the Python string methods
used by the scripts (`strip`, `rstrip`, `lstrip`, `split`, `partition`,
`startswith`, `endswith`, `str.find`) are re-implemented character by
character below.  Filesystem access is modelled by explicit inputs: file
contents are passed as strings and directory structure as explicit tree /
oracle values.
-/

namespace Kaizen

/-! ## Python string primitives -/

/-- Whitespace characters stripped by Python `str.strip()` (the subset that
can occur inside a line once the text has been split on newlines, plus the
newline itself). -/
def isPyWs (c : Char) : Bool :=
  c = ' ' || c = '\t' || c = '\r' || c = '\n' || c = '\x0b' || c = '\x0c'

/-- Python `s.lstrip()`. -/
def pyLStrip (s : String) : String := ⟨s.data.dropWhile isPyWs⟩

/-- Python `s.rstrip()`. -/
def pyRStrip (s : String) : String := ⟨(s.data.reverse.dropWhile isPyWs).reverse⟩

/-- Python `s.strip()`. -/
def pyStrip (s : String) : String := pyRStrip (pyLStrip s)

/-- Python `s.strip('"\'')` — removes all leading and trailing single or
double quote characters. -/
def isQuote (c : Char) : Bool := c = '"' || c = '\''

/-- Python `s.strip('"\'')`. -/
def stripQuotes (s : String) : String :=
  ⟨((s.data.dropWhile isQuote).reverse.dropWhile isQuote).reverse⟩

/-- Python `s.rstrip('/')`. -/
def rstripSlash (s : String) : String :=
  ⟨(s.data.reverse.dropWhile (· = '/')).reverse⟩

/-- Split a character list at every occurrence of `c` (Python
`str.split(c)` with a one-character separator: `"".split(c) == ['']`). -/
def splitCharAux (c : Char) : List Char → List Char → List (List Char)
  | [], acc => [acc.reverse]
  | x :: xs, acc =>
      if x = c then acc.reverse :: splitCharAux c xs []
      else splitCharAux c xs (x :: acc)

/-- Python `s.split(c)` for a single-character separator. -/
def splitStr (c : Char) (s : String) : List String :=
  (splitCharAux c s.data []).map fun l => ⟨l⟩

/-- Python `c in s` for a single character. -/
def containsChar (s : String) (c : Char) : Bool := s.data.any (· = c)

/-- Python `s.partition(c)` restricted to the first two components:
returns the part before the first `c` and the part after it (both empty
tail if `c` does not occur, as in Python where the last two components are
empty). -/
def partitionCharAux (c : Char) : List Char → List Char → (List Char × List Char)
  | [], acc => (acc.reverse, [])
  | x :: xs, acc =>
      if x = c then (acc.reverse, xs)
      else partitionCharAux c xs (x :: acc)

/-- Python `s.partition(c)` (head and tail parts). -/
def partitionChar (c : Char) (s : String) : String × String :=
  let p := partitionCharAux c s.data []
  (⟨p.1⟩, ⟨p.2⟩)

/-- Python `s.startswith(p)`. -/
def pyStartsWith (s p : String) : Bool := p.data.isPrefixOf s.data

/-- Python `s.endswith(p)`. -/
def pyEndsWith (s p : String) : Bool := p.data.isSuffixOf s.data

/-- Number of leading whitespace characters: Python
`len(line) - len(line.lstrip())`. -/
def indentOf (s : String) : Nat := (s.data.takeWhile isPyWs).length

/-- Python `str.lower()` (ASCII, which is all the vocabularies use). -/
def pyLower (s : String) : String := ⟨s.data.map Char.toLower⟩

/-- Python `'/'.join(parts)` / `str(Path)` style joining. -/
def joinSlash (parts : List String) : String := String.intercalate "/" parts

/-- `pathlib.PurePosixPath(s).parts` for a relative path: the non-empty,
non-`"."` slash-separated segments. -/
def pathParts (s : String) : List String :=
  (splitStr '/' s).filter fun seg => seg ≠ "" && seg ≠ "."

/-! ## `resolve_review_context.py` — `.doc_structure.yaml` parser -/

/-- `_split_kv`: split `'key: value'` at the first colon, stripping both
sides. -/
def split_kv (s : String) : String × String :=
  let p := partitionChar ':' s
  (pyStrip p.1, pyStrip p.2)

/-- `_parse_flow_array`: parse a flow array `'[a, b, c]'` by removing the
first and last character and splitting on commas (items stripped, one
layer of quotes removed, empty items dropped). -/
def parse_flow_array (s : String) : List String :=
  let inner : String := ⟨((pyStrip s).data.drop 1).dropLast⟩
  if pyStrip inner = "" then []
  else
    ((splitStr ',' inner).filter fun item => pyStrip item ≠ "").map
      fun item => stripQuotes (pyStrip item)

/-- Per-doc-type record stored by the parser.  The source code only ever
stores the `paths` and `description` fields (`exclude` lines merely set
`current_field` and their contents are discarded), so those are the only
fields. A `none` field models the dictionary key being absent. -/
structure DocTypeInfo where
  paths : Option (List String)
  description : Option String
  deriving Repr, DecidableEq

/-- A category section: `doc_type name ↦ info`, in insertion order
(Python `dict`). -/
abbrev CatMap := List (String × DocTypeInfo)

/-- The two category keys the parser recognizes at indent 0. -/
inductive CatKey where
  | specs
  | rules
  deriving Repr, DecidableEq

/-- The parsed `.doc_structure.yaml` document (`result` dict of
`_parse_doc_structure_yaml`): `none` fields model absent keys. -/
structure PyDocStructure where
  version : Option String
  specs : Option CatMap
  rules : Option CatMap
  deriving Repr, DecidableEq

/-- Parser state: the result so far plus the three state-machine
registers. -/
structure ParseState where
  result : PyDocStructure
  curCat : Option CatKey
  curDocType : Option String
  curField : Option String
  deriving Repr, DecidableEq

def ParseState.init : ParseState :=
  ⟨⟨none, none, none⟩, none, none, none⟩

/-- Read a category section of the result dict (absent key ↦ `none`). -/
def PyDocStructure.getCat (r : PyDocStructure) : CatKey → Option CatMap
  | .specs => r.specs
  | .rules => r.rules

/-- Write a category section of the result dict. -/
def PyDocStructure.setCat (r : PyDocStructure) : CatKey → CatMap → PyDocStructure
  | .specs, m => { r with specs := some m }
  | .rules, m => { r with rules := some m }

/-- `result.setdefault(category, {})`. -/
def PyDocStructure.setdefaultCat (r : PyDocStructure) (c : CatKey) : PyDocStructure :=
  match r.getCat c with
  | some _ => r
  | none => r.setCat c []

/-- `result[category].setdefault(doc_type, {})`. -/
def catSetdefault (m : CatMap) (dt : String) : CatMap :=
  if m.any fun p => p.1 = dt then m else m ++ [(dt, ⟨none, none⟩)]

/-- Update the info stored under `dt` (a no-op when the key is absent,
which the state machine never lets happen). -/
def catUpdate (m : CatMap) (dt : String) (f : DocTypeInfo → DocTypeInfo) : CatMap :=
  m.map fun p => if p.1 = dt then (p.1, f p.2) else p

/-- Apply an update to `result[cat][dt]`. -/
def ParseState.updateInfo (st : ParseState) (c : CatKey) (dt : String)
    (f : DocTypeInfo → DocTypeInfo) : ParseState :=
  match st.result.getCat c with
  | none => st
  | some m => { st with result := st.result.setCat c (catUpdate m dt f) }

/-- One iteration of the `for line in f` loop of
`_parse_doc_structure_yaml`. -/
def parseLine (st : ParseState) (line : String) : ParseState :=
  let stripped := pyRStrip line
  if stripped = "" || pyStartsWith (pyLStrip stripped) "#" then st
  else
    let indent := indentOf line
    let content := pyStrip stripped
    -- indent=0: top-level keys (version, specs, rules)
    if indent = 0 && containsChar content ':' then
      let kv := split_kv content
      if kv.1 = "version" then
        { st with result := { st.result with version := some (stripQuotes kv.2) } }
      else if kv.1 = "specs" then
        { st with result := st.result.setdefaultCat .specs,
                  curCat := some .specs, curDocType := none, curField := none }
      else if kv.1 = "rules" then
        { st with result := st.result.setdefaultCat .rules,
                  curCat := some .rules, curDocType := none, curField := none }
      else st
    -- indent=2: doc_type key
    else if indent = 2 && st.curCat.isSome && containsChar content ':' then
      match st.curCat with
      | none => st
      | some c =>
          let kv := split_kv content
          match st.result.getCat c with
          | none => st
          | some m =>
              { st with result := st.result.setCat c (catSetdefault m kv.1),
                        curDocType := some kv.1, curField := none }
    -- indent=4: field (paths, description; `exclude` only sets curField)
    else if indent = 4 && st.curCat.isSome && st.curDocType.isSome then
      match st.curCat, st.curDocType with
      | some c, some dt =>
          if containsChar content ':' && !pyStartsWith content "- " then
            let kv := split_kv content
            if kv.1 = "paths" then
              if pyStartsWith kv.2 "[" then
                (st.updateInfo c dt fun i => { i with paths := some (parse_flow_array kv.2) })
                  |> fun st' => { st' with curField := none }
              else
                { (st.updateInfo c dt fun i => { i with paths := some [] }) with
                    curField := some kv.1 }
            else if kv.1 = "description" then
              { (st.updateInfo c dt fun i => { i with description := some (stripQuotes kv.2) }) with
                  curField := some kv.1 }
            else
              { st with curField := some kv.1 }
          else if pyStartsWith content "- " && st.curField = some "paths" then
            let pathVal := stripQuotes (pyStrip ⟨content.data.drop 2⟩)
            st.updateInfo c dt fun i => { i with paths := some (i.paths.getD [] ++ [pathVal]) }
          else st
      | _, _ => st
    -- indent=6: block array item
    else if indent = 6 && st.curField = some "paths" && pyStartsWith content "- " then
      match st.curCat, st.curDocType with
      | some c, some dt =>
          let pathVal := stripQuotes (pyStrip ⟨content.data.drop 2⟩)
          st.updateInfo c dt fun i => { i with paths := some (i.paths.getD [] ++ [pathVal]) }
      | _, _ => st
    else st

/-- `_parse_doc_structure_yaml` as a pure function of the file's text:
fold the state machine over the lines, then return the result only when
the `version` key is present and truthy (non-empty). -/
def parse_doc_structure_yaml (text : String) : Option PyDocStructure :=
  let final := (splitStr '\n' text).foldl parseLine ParseState.init
  match final.result.version with
  | some v => if v = "" then none else some final.result
  | none => none

/-- `parse_doc_structure`: the caller-facing wrapper.  Its input models
the outcome of the filesystem access: `none` when `.doc_structure.yaml`
does not exist, `some (.error e)` when opening/reading/parsing raised an
exception, `some (.ok text)` when the text was read successfully. -/
def parse_doc_structure (file : Option (Except String String)) : Option PyDocStructure :=
  match file with
  | none => none
  | some (.error _) => none
  | some (.ok text) => parse_doc_structure_yaml text

/-! ## `resolve_review_context.py` — pattern matching and type detection -/

/-- The segment-by-segment loop of `_path_matches_pattern`: every pattern
segment must be `*` or equal to the path segment at the same index. -/
def matchSegs : List String → List String → Bool
  | [], _ => true
  | p :: ps, x :: xs => (p = "*" || x = p) && matchSegs ps xs
  | _ :: _, [] => false

/-- Python `s.replace('\\', '/')` (single-character pattern, so a plain
character map). -/
def replaceBackslash (s : String) : String :=
  ⟨s.data.map fun c => if c = '\\' then '/' else c⟩

/-- `_path_matches_pattern`. -/
def path_matches_pattern (filePath pattern : String) : Bool :=
  let patternParts := splitStr '/' (rstripSlash pattern)
  let pathParts := splitStr '/' (replaceBackslash filePath)
  if pathParts.length < patternParts.length then false
  else matchSegs patternParts pathParts

/-- `SPECS_REVIEW_TYPE_MAP` followed by `_doc_type_to_review_type`. -/
def doc_type_to_review_type (category : CatKey) (docTypeName : String) : Option String :=
  match category with
  | .specs =>
      if docTypeName = "requirement" then some "requirement"
      else if docTypeName = "design" then some "design"
      else if docTypeName = "plan" then some "plan"
      else some "generic"
  | .rules => some "generic"

/-- Inner loop of `detect_type_from_doc_structure` for one category. -/
def detectInCat (normalized : String) (cat : CatKey) (m : CatMap) : Option String :=
  m.firstM fun p =>
    (p.2.paths.getD []).firstM fun declaredPath =>
      if path_matches_pattern normalized declaredPath then
        doc_type_to_review_type cat p.1
      else none

/-- `detect_type_from_doc_structure`: try `specs` then `rules`, each
doc_type's declared paths in order; the first match wins.  There is no
exclusion check anywhere in this function. -/
def detect_type_from_doc_structure (pathStr : String)
    (docStructure : Option PyDocStructure) : Option String :=
  match docStructure with
  | none => none
  | some ds =>
      let normalized := replaceBackslash pathStr
      match detectInCat normalized .specs (ds.specs.getD []) with
      | some t => some t
      | none => detectInCat normalized .rules (ds.rules.getD [])

/-! ## Lemmas about the parser state machine -/

/-- `setCat` never touches the `version` key. -/
theorem version_setCat (r : PyDocStructure) (c : CatKey) (m : CatMap) :
    (r.setCat c m).version = r.version := by
  cases c <;> rfl

/-- `setdefaultCat` never touches the `version` key. -/
theorem version_setdefaultCat (r : PyDocStructure) (c : CatKey) :
    (r.setdefaultCat c).version = r.version := by
  unfold PyDocStructure.setdefaultCat
  split
  · rfl
  · exact version_setCat r c []

/-- `updateInfo` never touches the `version` key. -/
theorem version_updateInfo (st : ParseState) (c : CatKey) (dt : String)
    (f : DocTypeInfo → DocTypeInfo) :
    (st.updateInfo c dt f).result.version = st.result.version := by
  unfold ParseState.updateInfo
  split
  · rfl
  · exact version_setCat _ c _

/-- The single-line guard under which `_parse_doc_structure_yaml` writes
the `version` key: a non-blank, non-comment line with indent 0, a colon,
and key `version`. -/
def isVersionLine (line : String) : Bool :=
  let stripped := pyRStrip line
  !(stripped = "" || pyStartsWith (pyLStrip stripped) "#") &&
    indentOf line = 0 && containsChar (pyStrip stripped) ':' &&
    (split_kv (pyStrip stripped)).1 = "version"

/-- A line that is not a version line leaves the `version` register
unchanged. -/
theorem parseLine_version (st : ParseState) (line : String)
    (h : isVersionLine line = false) :
    (parseLine st line).result.version = st.result.version := by
  simp only [parseLine]
  by_cases hcb :
      (decide (pyRStrip line = "") || pyStartsWith (pyLStrip (pyRStrip line)) "#") = true
  · rw [if_pos hcb]
  · rw [if_neg hcb]
    by_cases hc0 :
        (decide (indentOf line = 0) && containsChar (pyStrip (pyRStrip line)) ':') = true
    · rw [if_pos hc0]
      by_cases hver : (split_kv (pyStrip (pyRStrip line))).1 = "version"
      · have hv : isVersionLine line = true := by
          unfold isVersionLine
          rw [Bool.not_eq_true] at hcb
          rw [Bool.and_eq_true] at hc0
          simp only [Bool.and_eq_true, decide_eq_true_eq]
          exact ⟨⟨⟨by rw [hcb]; rfl, of_decide_eq_true hc0.1⟩, hc0.2⟩, hver⟩
        rw [hv] at h
        exact absurd h (by simp)
      · rw [if_neg hver]
        repeat' split
        all_goals first
          | rfl
          | simp [version_setdefaultCat]
    · rw [if_neg hc0]
      repeat' split
      all_goals first
        | rfl
        | simp [version_setCat, version_updateInfo, version_setdefaultCat]

/-- Folding the parser over version-free lines leaves `version`
unchanged. -/
theorem foldl_parseLine_version (lines : List String) (st : ParseState)
    (h : ∀ l ∈ lines, isVersionLine l = false) :
    (lines.foldl parseLine st).result.version = st.result.version := by
  induction lines generalizing st with
  | nil => rfl
  | cons l ls ih =>
      rw [List.foldl_cons, ih _ (fun x hx => h x (List.mem_cons_of_mem _ hx)),
        parseLine_version st l (h l (List.mem_cons_self _ _))]

/-- C4: for every manifest text, the parser returns the absent result
(`none`) — never a partial structure — whenever the document lacks a
`version` key (no line of the text is a version-setting line), and the
`parse_doc_structure` wrapper converts a missing file and any exception
raised during parsing to the absent result rather than propagating it. -/
theorem C4_missing_version_and_exceptions_yield_none :
    (∀ text : String, (∀ l ∈ splitStr '\n' text, isVersionLine l = false) →
        parse_doc_structure_yaml text = none) ∧
      parse_doc_structure none = none ∧
      (∀ e : String, parse_doc_structure (some (.error e)) = none) := by
  refine ⟨fun text h => ?_, rfl, fun e => rfl⟩
  have hv : ((splitStr '\n' text).foldl parseLine ParseState.init).result.version = none :=
    foldl_parseLine_version (splitStr '\n' text) ParseState.init h
  simp only [parse_doc_structure_yaml]
  rw [hv]

/-- Witness for C4 at a concrete manifest text (the test-suite's
version-free document) and a concrete exception. -/
theorem C4_witness :
    parse_doc_structure_yaml "specs:\n  requirement:\n    paths: [specs/]" = none ∧
      parse_doc_structure (some (.error "boom")) = none :=
  ⟨C4_missing_version_and_exceptions_yield_none.1 _ (by decide),
   C4_missing_version_and_exceptions_yield_none.2.2 "boom"⟩

/-! ## C5: the pattern matcher -/

/-- `matchSegs` succeeds exactly when every pattern segment is `*` or
equals the path segment at the same index (given enough path
segments). -/
theorem matchSegs_iff (ps xs : List String) (h : ps.length ≤ xs.length) :
    matchSegs ps xs = true ↔
      ∀ i < ps.length, ps.getD i "" = "*" ∨ xs.getD i "" = ps.getD i "" := by
  induction ps generalizing xs with
  | nil => simp [matchSegs]
  | cons p ps ih =>
      cases xs with
      | nil => simp at h
      | cons x xs =>
          simp only [List.length_cons, Nat.succ_le_succ_iff] at h
          simp only [matchSegs, Bool.and_eq_true, Bool.or_eq_true, decide_eq_true_eq,
            ih xs h]
          constructor
          · rintro ⟨h0, hrest⟩ i hi
            cases i with
            | zero => simpa using h0
            | succ j =>
                simpa using hrest j (by simpa using hi)
          · intro hall
            refine ⟨by simpa using hall 0 (by simp), fun j hj => ?_⟩
            simpa using hall (j + 1) (by simpa using hj)

/-- C5: for every path string and pattern, the matcher succeeds if and
only if the path has at least as many segments as the (slash-stripped)
pattern and every non-wildcard pattern segment equals the path segment at
the same index; extra trailing path segments never cause a mismatch.
(Proved for all patterns, hence in particular for patterns with at most
one wildcard segment.) -/
theorem C5_path_matches_pattern_correct (filePath pattern : String) :
    path_matches_pattern filePath pattern = true ↔
      ((splitStr '/' (rstripSlash pattern)).length ≤
          (splitStr '/' (replaceBackslash filePath)).length ∧
        ∀ i < (splitStr '/' (rstripSlash pattern)).length,
          (splitStr '/' (rstripSlash pattern)).getD i "" = "*" ∨
            (splitStr '/' (replaceBackslash filePath)).getD i "" =
              (splitStr '/' (rstripSlash pattern)).getD i "") := by
  unfold path_matches_pattern
  by_cases h :
      (splitStr '/' (replaceBackslash filePath)).length <
        (splitStr '/' (rstripSlash pattern)).length
  · simp only [if_pos h]
    constructor
    · intro hfalse
      exact absurd hfalse (by simp)
    · rintro ⟨hlen, -⟩
      omega
  · simp only [if_neg h]
    rw [matchSegs_iff _ _ (by omega)]
    constructor
    · intro hall
      exact ⟨by omega, hall⟩
    · rintro ⟨-, hall⟩
      exact hall

/-! ## C1: exclusion is absent from the code -/

/-- The test-suite's manifest with flow-array `exclude` entries. -/
def yamlWithExclude : String :=
  "version: \"1.0\"\nspecs:\n  requirement:\n    paths: [\"specs/*/requirements/\"]\n    exclude: [\"archived\", \"_template\"]\n"

/-- C1 (code behavior at the failing input): the parser silently drops
the `exclude` list (the parsed structure records only `paths`), and type
detection for `specs/archived/requirements/req.md` — which the spec, and
the repository's own tests (`test_excluded_path_returns_none`), require
to resolve to no type — returns `requirement`.  The code has no
`_is_excluded` / `_get_all_excludes` at all, although the test suite
imports them. -/
theorem C1_exclusion_not_implemented :
    parse_doc_structure_yaml yamlWithExclude =
        some ⟨some "1.0", some [("requirement", ⟨some ["specs/*/requirements/"], none⟩)], none⟩ ∧
      detect_type_from_doc_structure "specs/archived/requirements/req.md"
          (parse_doc_structure_yaml yamlWithExclude) = some "requirement" := by
  constructor <;> rfl

/-! ## C10: feature discovery (`detect_features_from_doc_structure`)

The filesystem accesses of the function (`Path.is_dir` and
`Path.iterdir`) are modelled by an oracle: `isDir` answers whether the
path (a segment list relative to the project root) is a directory —
following symlinks, as `Path.is_dir` does — and `childNames` lists the
entry names `iterdir` yields for it. -/

structure ResolverFs where
  isDir : List String → Bool
  childNames : List String → List String

/-- The candidate feature names one wildcard path pattern contributes:
the body of the `for path_pattern in type_info.get('paths', [])` loop of
`detect_features_from_doc_structure`. -/
def featureCandidates (fs : ResolverFs) (pat : String) : List String :=
  let parts := splitStr '/' (rstripSlash pat)
  match parts.findIdx? (· = "*") with
  | none => []
  | some starIdx =>
      let prefixParts := parts.take starIdx
      if !fs.isDir prefixParts then []
      else
        let suffixParts := parts.drop (starIdx + 1)
        ((fs.childNames prefixParts).filter fun n =>
            fs.isDir (prefixParts ++ [n]) && !pyStartsWith n ".").filter fun n =>
          if suffixParts.isEmpty then true
          else fs.isDir (prefixParts ++ [n] ++ suffixParts)

/-- Python string `<=`: lexicographic comparison by code points. -/
def charListLe : List Char → List Char → Bool
  | [], _ => true
  | _ :: _, [] => false
  | x :: xs, y :: ys => if x = y then charListLe xs ys else decide (x < y)

/-- Python string `<=` on `String`. -/
def strLe (a b : String) : Bool := charListLe a.data b.data

/-- Insert into a sorted list (the inner step of an insertion sort). -/
def insertSorted (x : String) : List String → List String
  | [] => [x]
  | y :: ys => if strLe x y then x :: y :: ys else y :: insertSorted x ys

/-- Insertion sort by Python string order. -/
def sortStrings : List String → List String
  | [] => []
  | x :: xs => insertSorted x (sortStrings xs)

/-- `insertSorted` permutes. -/
theorem insertSorted_perm (x : String) (l : List String) :
    (insertSorted x l).Perm (x :: l) := by
  induction l with
  | nil => rfl
  | cons y ys ih =>
      unfold insertSorted
      split
      · rfl
      · exact ((ih.cons y).trans (List.Perm.swap x y ys))

/-- `sortStrings` permutes. -/
theorem sortStrings_perm (l : List String) : (sortStrings l).Perm l := by
  induction l with
  | nil => rfl
  | cons x xs ih => exact (insertSorted_perm x (sortStrings xs)).trans (ih.cons x)

/-- Python `sorted(set(l))` on strings (code-point order): sort the
distinct elements. -/
def pySortedSet (l : List String) : List String :=
  sortStrings l.dedup

/-- `detect_features_from_doc_structure`: collect candidates over every
`specs` doc_type's wildcard patterns, then return the sorted,
de-duplicated set. -/
def detect_features_from_doc_structure (fs : ResolverFs)
    (ds : Option PyDocStructure) : List String :=
  match ds with
  | none => []
  | some d =>
      pySortedSet <| (d.specs.getD []).flatMap fun p =>
        (p.2.paths.getD []).flatMap fun pat => featureCandidates fs pat

/-- Candidates contributed by a single pattern never start with a dot
(the `entry.name.startswith('.')` filter). -/
theorem featureCandidates_no_dot (fs : ResolverFs) (pat : String) (n : String)
    (hn : n ∈ featureCandidates fs pat) : pyStartsWith n "." = false := by
  simp only [featureCandidates] at hn
  split at hn
  · simp at hn
  · split at hn
    · simp at hn
    · rw [List.mem_filter] at hn
      obtain ⟨hmem, -⟩ := hn
      rw [List.mem_filter] at hmem
      have := hmem.2
      simp only [Bool.and_eq_true, Bool.not_eq_true'] at this
      exact this.2

/-- C10: for every (modelled) filesystem state and parsed manifest,
feature discovery never returns a feature name beginning with `.` — even
when a real dot-directory exists under a wildcard pattern's prefix — and
the feature list is de-duplicated (and sorted, being `sorted(set(...))`).
-/
theorem C10_features_never_hidden :
    (∀ (fs : ResolverFs) (ds : Option PyDocStructure) (n : String),
        n ∈ detect_features_from_doc_structure fs ds → pyStartsWith n "." = false) ∧
      ∀ (fs : ResolverFs) (ds : Option PyDocStructure),
        (detect_features_from_doc_structure fs ds).Nodup := by
  constructor
  · intro fs ds n hn
    unfold detect_features_from_doc_structure at hn
    match ds with
    | none => simp at hn
    | some d =>
        simp only [pySortedSet] at hn
        rw [(sortStrings_perm _).mem_iff, List.mem_dedup] at hn
        rw [List.mem_flatMap] at hn
        obtain ⟨p, -, hp⟩ := hn
        rw [List.mem_flatMap] at hp
        obtain ⟨pat, -, hpat⟩ := hp
        exact featureCandidates_no_dot fs pat n hpat
  · intro fs ds
    unfold detect_features_from_doc_structure
    match ds with
    | none => simp
    | some d =>
        exact ((sortStrings_perm _).nodup_iff).mpr (List.nodup_dedup _)

/-- A concrete filesystem for the C10 witness: `specs/` contains a
visible feature directory `login` and a real hidden directory `.hidden`,
both with a `requirements` subdirectory. -/
def c10Fs : ResolverFs where
  isDir := fun p =>
    decide (p = ["specs"] ∨ p = ["specs", "login"] ∨ p = ["specs", ".hidden"] ∨
      p = ["specs", "login", "requirements"] ∨ p = ["specs", ".hidden", "requirements"])
  childNames := fun p => if p = ["specs"] then ["login", ".hidden"] else []

/-- The manifest used by the C10 witness. -/
def c10Ds : PyDocStructure :=
  ⟨some "1.0", some [("requirement", ⟨some ["specs/*/requirements/"], none⟩)], none⟩

/-- Witness for C10: on `c10Fs` the discovered features are exactly
`["login"]` — the hidden real directory `.hidden` is filtered out — and
the theorem applies to the member `login`. -/
theorem C10_witness :
    detect_features_from_doc_structure c10Fs (some c10Ds) = ["login"] ∧
      pyStartsWith "login" "." = false :=
  ⟨by decide,
   C10_features_never_hidden.1 c10Fs (some c10Ds) "login" (by decide)⟩

/-! ## `classify_dirs.py` — doc-type estimation and aggregation -/

/-- The two taxonomy categories. -/
inductive Category where
  | rules
  | specs
  deriving Repr, DecidableEq

/-- The three confidence levels. -/
inductive Confidence where
  | low
  | medium
  | high
  deriving Repr, DecidableEq

/-- `_CONFIDENCE_ORDER`. -/
def confidenceOrder : Confidence → Nat
  | .low => 0
  | .medium => 1
  | .high => 2

/-- `DOC_TYPE_NAMES`. -/
def DOC_TYPE_NAMES : List (String × String) :=
  [("requirements", "requirement"), ("requirement", "requirement"),
   ("req", "requirement"), ("reqs", "requirement"),
   ("designs", "design"), ("design", "design"), ("des", "design"),
   ("plans", "plan"), ("plan", "plan"),
   ("rules", "rule"), ("rule", "rule"),
   ("workflows", "workflow"), ("workflow", "workflow"),
   ("guides", "guide"), ("guide", "guide"),
   ("references", "reference"), ("reference", "reference"), ("ref", "reference"),
   ("api", "api"), ("apis", "api"),
   ("specs", "spec"), ("spec", "spec"), ("specifications", "spec"),
   ("standards", "rule"), ("conventions", "rule"),
   ("policies", "rule"), ("guidelines", "guide")]

/-- Dictionary lookup in `DOC_TYPE_NAMES`. -/
def docTypeLookup (s : String) : Option String :=
  (DOC_TYPE_NAMES.find? fun p => p.1 = s).map (·.2)

/-- `estimate_doc_type`: scan path components deepest-first for a known
doc-type directory name, defaulting to `rule`/`spec` by category. -/
def estimate_doc_type (dirPath : String) (category : Category) : String :=
  match (pathParts dirPath).reverse.findSome? (fun part => docTypeLookup (pyLower part)) with
  | some dt => dt
  | none => if category = .rules then "rule" else "spec"

/-- One classified directory, as the `(dir_path, category, confidence,
reason)` tuples `main` passes to `aggregate_to_top_dirs`. -/
structure Classified where
  dir : String
  category : Category
  confidence : Confidence
  reason : String
  deriving Repr, DecidableEq

/-- An output entry of the aggregator. -/
structure AggEntry where
  dir : String
  confidence : Confidence
  reason : String
  doc_type : String
  deriving Repr, DecidableEq

/-- The aggregator's result dict
`{'rules': [...], 'specs': [...], 'skip': [], 'mixed': []}`. -/
structure AggResult where
  rules : List AggEntry
  specs : List AggEntry
  skip : List AggEntry
  mixed : List AggEntry
  deriving Repr, DecidableEq

/-- Phase 1 of the aggregator: an input entry enriched with its estimated
doc_type and top-level path segment. -/
structure Enriched where
  dir : String
  category : Category
  confidence : Confidence
  reason : String
  doc_type : String
  top_dir : String
  deriving Repr, DecidableEq

/-- `parts[0] if parts else dir_path`. -/
def topDirOf (dirPath : String) : String :=
  match pathParts dirPath with
  | [] => dirPath
  | t :: _ => t

/-- Phase 1: enrich one entry. -/
def enrich (c : Classified) : Enriched :=
  ⟨c.dir, c.category, c.confidence, c.reason,
   estimate_doc_type c.dir c.category, topDirOf c.dir⟩

/-- The grouping key `(category, top_dir, doc_type)`. -/
abbrev GroupKey := Category × String × String

def keyOf (e : Enriched) : GroupKey := (e.category, e.top_dir, e.doc_type)

/-- Phase 2 step: `groups.setdefault(key, []).append(entry)` with Python
dict insertion-order semantics. -/
def addToGroups (gs : List (GroupKey × List Enriched)) (e : Enriched) :
    List (GroupKey × List Enriched) :=
  if gs.any fun g => g.1 = keyOf e then
    gs.map fun g => if g.1 = keyOf e then (g.1, g.2 ++ [e]) else g
  else gs ++ [(keyOf e, [e])]

/-- Phase 2: group the enriched entries by key. -/
def groupsOf (l : List Classified) : List (GroupKey × List Enriched) :=
  (l.map enrich).foldl addToGroups []

/-- Phase 3: the set of categories appearing with a given top directory
(`top_dir_categories[top_dir]`). -/
def topCategories (gs : List (GroupKey × List Enriched)) (top : String) : List Category :=
  ((gs.map (·.1)).filter fun k => k.2.1 = top).map (·.1) |>.dedup

/-- Python `max(confidences, key=_CONFIDENCE_ORDER.get)` (first maximal
element wins ties). -/
def maxConfidence : List Confidence → Confidence
  | [] => .low
  | c :: cs => cs.foldl (fun b x => if confidenceOrder x > confidenceOrder b then x else b) c

/-- The aggregated-entry reason
`f"aggregated from {len(entries)} subdirs: {first_reason}"`. -/
def mkAggReason (n : Nat) (firstReason : String) : String :=
  s!"aggregated from {n} subdirs: {firstReason}"

/-- Phase 4, one group: emit the aggregated entries (individual paths
when the top dir is category-mixed; a single collapsed entry when the
group has several members or its member already sits at the top dir;
otherwise the single member's individual path). -/
def emitGroup (isMixed : Bool) (k : GroupKey) (entries : List Enriched) : List AggEntry :=
  if isMixed then
    entries.map fun e => ⟨e.dir ++ "/", e.confidence, e.reason, k.2.2⟩
  else
    match entries with
    | [] => []
    | e0 :: rest =>
        if rest.length + 1 > 1 || e0.dir = k.2.1 then
          [⟨k.2.1 ++ "/", maxConfidence ((e0 :: rest).map (·.confidence)),
            mkAggReason (rest.length + 1) e0.reason, k.2.2⟩]
        else
          [⟨e0.dir ++ "/", e0.confidence, e0.reason, k.2.2⟩]

/-- `result[category].extend(...)`. -/
def appendToCat (r : AggResult) (c : Category) (es : List AggEntry) : AggResult :=
  match c with
  | .rules => { r with rules := r.rules ++ es }
  | .specs => { r with specs := r.specs ++ es }

/-- Read `result[category]`. -/
def catList (r : AggResult) : Category → List AggEntry
  | .rules => r.rules
  | .specs => r.specs

/-- `aggregate_to_top_dirs`. -/
def aggregate_to_top_dirs (l : List Classified) : AggResult :=
  let gs := groupsOf l
  gs.foldl
    (fun r g =>
      let isMixed := (topCategories gs g.1.2.1).length > 1
      appendToCat r g.1.1 (emitGroup isMixed g.1 g.2))
    ⟨[], [], [], []⟩

/-! ## Lemmas about grouping and aggregation (C8, C9) -/

/-- After `addToGroups gs x`, `x` sits in a group keyed `keyOf x`. -/
theorem addToGroups_mem (gs : List (GroupKey × List Enriched)) (x : Enriched) :
    ∃ g, (keyOf x, g) ∈ addToGroups gs x ∧ x ∈ g := by
  unfold addToGroups
  split
  · rename_i hany
    rw [List.any_eq_true] at hany
    obtain ⟨g0, hg0, hk⟩ := hany
    rw [decide_eq_true_eq] at hk
    refine ⟨g0.2 ++ [x], ?_, by simp⟩
    have : ((fun g => if g.1 = keyOf x then (g.1, g.2 ++ [x]) else g) g0) =
        (keyOf x, g0.2 ++ [x]) := by
      simp [hk]
    exact this ▸ List.mem_map_of_mem _ hg0
  · exact ⟨[x], by simp, by simp⟩

/-- `addToGroups` preserves membership in existing groups (under the same
key). -/
theorem addToGroups_preserve (gs : List (GroupKey × List Enriched)) (x : Enriched)
    (k : GroupKey) (g : List Enriched) (hg : (k, g) ∈ gs) (e : Enriched) (he : e ∈ g) :
    ∃ g', (k, g') ∈ addToGroups gs x ∧ e ∈ g' := by
  unfold addToGroups
  split
  · by_cases hk : k = keyOf x
    · refine ⟨g ++ [x], ?_, by simp [he]⟩
      have : ((fun g' => if g'.1 = keyOf x then (g'.1, g'.2 ++ [x]) else g') (k, g)) =
          (k, g ++ [x]) := by
        simp [hk]
      exact this ▸ List.mem_map_of_mem _ hg
    · refine ⟨g, ?_, he⟩
      have : ((fun g' => if g'.1 = keyOf x then (g'.1, g'.2 ++ [x]) else g') (k, g)) =
          (k, g) := by
        simp [hk]
      exact this ▸ List.mem_map_of_mem _ hg
  · exact ⟨g, List.mem_append_left _ hg, he⟩

/-- Folding `addToGroups` preserves membership in existing groups. -/
theorem foldl_addToGroups_preserve (xs : List Enriched) :
    ∀ (gs : List (GroupKey × List Enriched)) (k : GroupKey) (g : List Enriched),
      (k, g) ∈ gs → ∀ e ∈ g,
        ∃ g', (k, g') ∈ xs.foldl addToGroups gs ∧ e ∈ g' := by
  induction xs with
  | nil => exact fun gs k g hg e he => ⟨g, hg, he⟩
  | cons x xs ih =>
      intro gs k g hg e he
      obtain ⟨g', hg', he'⟩ := addToGroups_preserve gs x k g hg e he
      exact ih (addToGroups gs x) k g' hg' e he'

/-- Every folded-in entry ends up in the group keyed by its key. -/
theorem foldl_addToGroups_mem (xs : List Enriched) :
    ∀ (gs : List (GroupKey × List Enriched)) (x : Enriched), x ∈ xs →
      ∃ g, (keyOf x, g) ∈ xs.foldl addToGroups gs ∧ x ∈ g := by
  induction xs with
  | nil => intro gs x hx; simp at hx
  | cons y ys ih =>
      intro gs x hx
      rcases List.mem_cons.mp hx with rfl | hx
      · obtain ⟨g, hg, hxg⟩ := addToGroups_mem gs x
        exact foldl_addToGroups_preserve ys (addToGroups gs x) (keyOf x) g hg x hxg
      · exact ih (addToGroups gs y) x hx

/-- Every input entry sits inside its group of `groupsOf`. -/
theorem mem_groupsOf (l : List Classified) (e : Classified) (he : e ∈ l) :
    ∃ g, (keyOf (enrich e), g) ∈ groupsOf l ∧ enrich e ∈ g :=
  foldl_addToGroups_mem (l.map enrich) [] (enrich e) (List.mem_map_of_mem _ he)

/-- Reading a category list after `appendToCat`. -/
theorem catList_appendToCat (r : AggResult) (c c' : Category) (es : List AggEntry) :
    catList (appendToCat r c es) c' = catList r c' ++ (if c = c' then es else []) := by
  cases c <;> cases c' <;> simp [appendToCat, catList]

/-- Reading a category list after the aggregation fold. -/
theorem catList_foldl (E : (GroupKey × List Enriched) → List AggEntry)
    (gs : List (GroupKey × List Enriched)) (acc : AggResult) (c : Category) :
    catList (gs.foldl (fun r g => appendToCat r g.1.1 (E g)) acc) c =
      catList acc c ++ gs.flatMap fun g => if g.1.1 = c then E g else [] := by
  induction gs generalizing acc with
  | nil => simp
  | cons g gs ih =>
      rw [List.foldl_cons, ih, List.flatMap_cons, catList_appendToCat,
        List.append_assoc]

/-- Every entry emitted for a group carries the group's doc_type. -/
theorem emitGroup_doc_type (m : Bool) (k : GroupKey) (es : List Enriched)
    (o : AggEntry) (ho : o ∈ emitGroup m k es) : o.doc_type = k.2.2 := by
  unfold emitGroup at ho
  split at ho
  · obtain ⟨e, -, rfl⟩ := List.mem_map.mp ho
    rfl
  · split at ho
    · simp at ho
    · split at ho <;> simp_all

/-- A non-empty group always emits at least one entry. -/
theorem emitGroup_exists (m : Bool) (k : GroupKey) (es : List Enriched)
    (hne : es ≠ []) : ∃ o, o ∈ emitGroup m k es := by
  unfold emitGroup
  split
  · match es, hne with
    | e :: es, _ => exact ⟨_, List.mem_map_of_mem _ (List.mem_cons_self e es)⟩
  · match es, hne with
    | e0 :: rest, _ =>
        dsimp only
        split <;> exact ⟨_, List.mem_cons_self _ _⟩

/-- In the mixed case every member is emitted individually. -/
theorem emitGroup_mixed_mem (k : GroupKey) (es : List Enriched) (e : Enriched)
    (he : e ∈ es) :
    (⟨e.dir ++ "/", e.confidence, e.reason, k.2.2⟩ : AggEntry) ∈ emitGroup true k es := by
  unfold emitGroup
  rw [if_pos rfl]
  exact List.mem_map_of_mem _ he

/-- What a group contributes is in the final result. -/
theorem mem_aggregate (l : List Classified) (k : GroupKey) (g : List Enriched)
    (hg : (k, g) ∈ groupsOf l) (o : AggEntry)
    (ho : o ∈ emitGroup (decide ((topCategories (groupsOf l) k.2.1).length > 1)) k g) :
    o ∈ catList (aggregate_to_top_dirs l) k.1 := by
  have hagg : aggregate_to_top_dirs l =
      (groupsOf l).foldl
        (fun r g =>
          appendToCat r g.1.1
            (emitGroup (decide ((topCategories (groupsOf l) g.1.2.1).length > 1)) g.1 g.2))
        ⟨[], [], [], []⟩ := rfl
  rw [hagg, catList_foldl]
  rw [List.mem_append]
  right
  rw [List.mem_flatMap]
  exact ⟨(k, g), hg, by simpa using ho⟩

/-- A key present among the groups contributes its category to
`topCategories` of its top dir. -/
theorem mem_topCategories (gs : List (GroupKey × List Enriched)) (k : GroupKey)
    (g : List Enriched) (hk : (k, g) ∈ gs) : k.1 ∈ topCategories gs k.2.1 := by
  unfold topCategories
  rw [List.mem_dedup, List.mem_map]
  refine ⟨k, ?_, rfl⟩
  rw [List.mem_filter]
  exact ⟨List.mem_map_of_mem _ hk, by simp⟩

/-- A duplicate-free list with two distinct members has length `> 1`. -/
theorem one_lt_length_of_two_mem {α : Type} {l : List α} (hnd : l.Nodup)
    {a b : α} (ha : a ∈ l) (hb : b ∈ l) (hab : a ≠ b) : 1 < l.length := by
  match l, ha with
  | [x], ha =>
      rw [List.mem_singleton] at ha hb
      exact absurd (ha.trans hb.symm) hab
  | x :: y :: rest, _ => simp
  | [], ha => simp at ha

/-- `topCategories` is duplicate-free (it ends in `dedup`). -/
theorem topCategories_nodup (gs : List (GroupKey × List Enriched)) (top : String) :
    (topCategories gs top).Nodup :=
  List.nodup_dedup _

/-- Every input entry is represented in its category's output by an entry
carrying its estimated doc_type. -/
theorem exists_representative (l : List Classified) (e : Classified) (he : e ∈ l) :
    ∃ o ∈ catList (aggregate_to_top_dirs l) e.category,
      o.doc_type = estimate_doc_type e.dir e.category := by
  obtain ⟨g, hg, heg⟩ := mem_groupsOf l e he
  obtain ⟨o, ho⟩ :=
    emitGroup_exists
      (decide ((topCategories (groupsOf l) (keyOf (enrich e)).2.1).length > 1))
      (keyOf (enrich e)) g (List.ne_nil_of_mem heg)
  exact ⟨o, mem_aggregate l (keyOf (enrich e)) g hg o ho,
    emitGroup_doc_type _ _ _ o ho⟩

/-- C8 (amended): two classification results whose paths share the same
top-level segment but differ in estimated doc_type or in category are
never merged into one aggregated entry — the output always contains an
entry carrying each one's own doc_type inside its own category list (two
necessarily distinct entries) — and when the shared top-level segment
hosts two different categories (the "mixed" case) every original path
with that top-level segment is preserved individually, with its own
confidence and reason.  (The original claim's stronger reading — that
each such original path is always preserved individually — fails when a
third same-doc_type sibling exists; see the counterexample.) -/
theorem C8_no_cross_doc_type_merge (l : List Classified) (e1 e2 : Classified)
    (h1 : e1 ∈ l) (h2 : e2 ∈ l)
    (htop : topDirOf e1.dir = topDirOf e2.dir)
    (hdiff : e1.category ≠ e2.category ∨
      estimate_doc_type e1.dir e1.category ≠ estimate_doc_type e2.dir e2.category) :
    ((∃ o ∈ catList (aggregate_to_top_dirs l) e1.category,
        o.doc_type = estimate_doc_type e1.dir e1.category) ∧
      ∃ o ∈ catList (aggregate_to_top_dirs l) e2.category,
        o.doc_type = estimate_doc_type e2.dir e2.category) ∧
      (e1.category ≠ e2.category →
        ∀ e ∈ l, topDirOf e.dir = topDirOf e1.dir →
          ∃ o ∈ catList (aggregate_to_top_dirs l) e.category,
            o.dir = e.dir ++ "/" ∧ o.confidence = e.confidence ∧
              o.reason = e.reason ∧ o.doc_type = estimate_doc_type e.dir e.category) := by
  refine ⟨⟨exists_representative l e1 h1, exists_representative l e2 h2⟩, ?_⟩
  intro hcat e he htope
  obtain ⟨g1, hg1, -⟩ := mem_groupsOf l e1 h1
  obtain ⟨g2, hg2, -⟩ := mem_groupsOf l e2 h2
  obtain ⟨ge, hge, hege⟩ := mem_groupsOf l e he
  have hc1 : e1.category ∈ topCategories (groupsOf l) (topDirOf e1.dir) :=
    mem_topCategories (groupsOf l) (keyOf (enrich e1)) g1 hg1
  have hc2 : e2.category ∈ topCategories (groupsOf l) (topDirOf e1.dir) := by
    have := mem_topCategories (groupsOf l) (keyOf (enrich e2)) g2 hg2
    have hk2 : (keyOf (enrich e2)).2.1 = topDirOf e1.dir := htop.symm
    rwa [hk2] at this
  have hlen : 1 < (topCategories (groupsOf l) (topDirOf e1.dir)).length :=
    one_lt_length_of_two_mem (topCategories_nodup _ _) hc1 hc2 hcat
  have hmix :
      decide ((topCategories (groupsOf l) (keyOf (enrich e)).2.1).length > 1) = true := by
    have hke : (keyOf (enrich e)).2.1 = topDirOf e1.dir := htope
    rw [hke]
    exact decide_eq_true hlen
  have ho :=
    emitGroup_mixed_mem (keyOf (enrich e)) ge (enrich e) hege
  rw [← hmix] at ho
  exact ⟨_, mem_aggregate l (keyOf (enrich e)) ge hge _ ho, rfl, rfl, rfl, rfl⟩

/-- Counterexample to C8 as stated: `specs/requirements` and
`specs/design` share the top-level segment `specs` and differ in
estimated doc_type, so the claim requires the path `specs/requirements`
to be preserved individually — but in the presence of a same-doc_type
sibling `specs/reqs` it collapses into `specs/`, and no output entry has
path `specs/requirements/`.  (`specs/requirements` and `specs/design` do
not collapse into one entry; the preservation part of the claim is what
fails.) -/
theorem C8_counterexample :
    (estimate_doc_type "specs/requirements" .specs = "requirement" ∧
        estimate_doc_type "specs/design" .specs = "design" ∧
        topDirOf "specs/requirements" = topDirOf "specs/design") ∧
      ((aggregate_to_top_dirs
            [⟨"specs/requirements", .specs, .high, "r1"⟩,
             ⟨"specs/reqs", .specs, .high, "r2"⟩,
             ⟨"specs/design", .specs, .high, "r3"⟩]).specs.map (·.dir)) =
        ["specs/", "specs/design/"] := by
  constructor
  · refine ⟨by decide, by decide, by decide⟩
  · decide

/-- The mixed-top-dir input used to witness C8. -/
def c8wl : List Classified :=
  [⟨"docs/rules", .rules, .medium, "a"⟩, ⟨"docs/specs", .specs, .medium, "b"⟩]

/-- Witness for C8 at a concrete mixed input: both doc_types are
represented and every original path under the mixed top dir survives
individually. -/
theorem C8_witness :
    ((∃ o ∈ catList (aggregate_to_top_dirs c8wl) Category.rules,
        o.doc_type = estimate_doc_type "docs/rules" .rules) ∧
      ∃ o ∈ catList (aggregate_to_top_dirs c8wl) Category.specs,
        o.doc_type = estimate_doc_type "docs/specs" .specs) ∧
      (Category.rules ≠ Category.specs →
        ∀ e ∈ c8wl, topDirOf e.dir = topDirOf "docs/rules" →
          ∃ o ∈ catList (aggregate_to_top_dirs c8wl) e.category,
            o.dir = e.dir ++ "/" ∧ o.confidence = e.confidence ∧
              o.reason = e.reason ∧ o.doc_type = estimate_doc_type e.dir e.category) :=
  C8_no_cross_doc_type_merge c8wl
    ⟨"docs/rules", .rules, .medium, "a"⟩ ⟨"docs/specs", .specs, .medium, "b"⟩
    (by decide) (by decide) (by decide) (Or.inl (by decide))

/-- C9 (amended): re-aggregating the collapsed entry of a non-mixed,
single-doc_type group — with the trailing slash stripped from its path —
yields a single entry with the same path and confidence; its doc_type is
re-estimated from the top-level segment alone (so it equals the original
group's doc_type exactly when that segment maps to it), and the reason is
rewritten as an 1-member aggregate.  Feeding the slash-terminated path
back verbatim instead yields a doubled slash (see the counterexample). -/
theorem C9_reaggregation_stripped (top : String) (cat : Category)
    (conf : Confidence) (reason : String) (h : pathParts top = [top]) :
    aggregate_to_top_dirs [⟨top, cat, conf, reason⟩] =
      appendToCat ⟨[], [], [], []⟩ cat
        [⟨top ++ "/", conf, mkAggReason 1 reason, estimate_doc_type top cat⟩] := by
  have htd : topDirOf top = top := by
    unfold topDirOf
    rw [h]
  simp [aggregate_to_top_dirs, groupsOf, addToGroups, enrich, keyOf, htd,
    topCategories, emitGroup, maxConfidence]

/-- Counterexample to C9 as stated: aggregating `docs/requirements` and
`docs/reqs` collapses them to the entry `(docs/, medium, requirement)`;
feeding that collapsed entry back through aggregation yields
`(docs//, medium, spec)` — the path gains a second slash and the doc_type
is re-estimated from `docs` to the category default `spec`, so the result
is not the same collapsed entry. -/
theorem C9_counterexample :
    ((aggregate_to_top_dirs
          [⟨"docs/requirements", .specs, .medium, "m1"⟩,
           ⟨"docs/reqs", .specs, .medium, "m2"⟩]).specs.map
        fun o => (o.dir, o.confidence, o.doc_type)) =
        [("docs/", Confidence.medium, "requirement")] ∧
      ((aggregate_to_top_dirs
            [⟨"docs/", .specs, .medium, "aggregated from 2 subdirs: m1"⟩]).specs.map
          fun o => (o.dir, o.confidence, o.doc_type)) =
        [("docs//", Confidence.medium, "spec")] := by
  constructor <;> decide

/-- Witness for C9 at a concrete top directory whose name maps to the
group's doc_type (`rules` ↦ `rule`). -/
theorem C9_witness :
    aggregate_to_top_dirs [⟨"rules", .rules, .medium, "m"⟩] =
      appendToCat ⟨[], [], [], []⟩ .rules
        [⟨"rules" ++ "/", .medium, mkAggReason 1 "m", estimate_doc_type "rules" .rules⟩] :=
  C9_reaggregation_stripped "rules" .rules .medium "m" (by decide)

/-! ## `classify_dirs.py` — front matter and the front-matter strategy -/

/-- Python `s.find(pat, ...)` on an already-dropped suffix: index of the
first occurrence of `pat` in `l`, or `none`. -/
def findSub (pat : List Char) : List Char → Nat → Option Nat
  | [], i => if pat = [] then some i else none
  | x :: xs, i =>
      if pat.isPrefixOf (x :: xs) then some i else findSub pat xs (i + 1)

/-- Python dict assignment `d[k] = v` (overwrite keeps position, new keys
append). -/
def dictSet (d : List (String × String)) (k v : String) : List (String × String) :=
  if d.any fun p => p.1 = k then d.map fun p => if p.1 = k then (k, v) else p
  else d ++ [(k, v)]

/-- Python dict lookup `d.get(k)`. -/
def dictGet (d : List (String × String)) (k : String) : Option String :=
  (d.find? fun p => p.1 = k).map (·.2)

/-- `extract_front_matter`, as a function of the bytes read from the file
(the first 4096 bytes in the source): `none` when the content does not
start with `---` or has no closing `---` after position 3; otherwise the
dict of `key: value` lines between the markers. -/
def extract_front_matter (content : String) : Option (List (String × String)) :=
  if !pyStartsWith content "---" then none
  else
    match findSub "---".data (content.data.drop 3) 0 with
    | none => none
    | some relEnd =>
        let fmContent : String := ⟨(content.data.drop 3).take relEnd⟩
        some <|
          (splitStr '\n' fmContent).foldl
            (fun d rawLine =>
              let line := pyStrip rawLine
              if containsChar line ':' && !pyStartsWith line "#" then
                let p := partitionChar ':' line
                dictSet d (pyStrip p.1) (stripQuotes (pyStrip p.2))
              else d)
            []

/-- The `doc_type` values tallied as rules. -/
def RULE_FM_TYPES : List String := ["rule", "rules", "guideline", "standard", "workflow"]

/-- The `doc_type` values tallied as specs. -/
def SPEC_FM_TYPES : List String :=
  ["requirement", "requirements", "design", "plan", "specification", "spec", "specs"]

/-- The front-matter reason string
`f"frontmatter doc_type={kind} ({n}/{t} files)"`. -/
def fmReason (kind : String) (n t : Nat) : String :=
  s!"frontmatter doc_type={kind} ({n}/{t} files)"

/-- The tally step of the `for md_file in md_files` loop: accumulator is
`(rules_count, specs_count, total_with_fm)`. -/
def fmTallyStep (acc : Nat × Nat × Nat) (content : String) : Nat × Nat × Nat :=
  match extract_front_matter content with
  | none => acc
  | some fm =>
      if fm.isEmpty then acc
      else
        match dictGet fm "doc_type" with
        | none => acc
        | some dt0 =>
            let dt := pyLower dt0
            if RULE_FM_TYPES.contains dt then (acc.1 + 1, acc.2.1, acc.2.2 + 1)
            else if SPEC_FM_TYPES.contains dt then (acc.1, acc.2.1 + 1, acc.2.2 + 1)
            else (acc.1, acc.2.1, acc.2.2 + 1)

/-- `classify_by_frontmatter`, as a function of the contents of the
directory's `*.md` files (the filesystem boundary: `md_files` and each
file's first 4096 bytes are the inputs). -/
def classify_by_frontmatter (files : List String) :
    Option (Category × Confidence × String) :=
  if files.isEmpty then none
  else
    let t := files.foldl fmTallyStep (0, 0, 0)
    let rulesCount := t.1
    let specsCount := t.2.1
    let totalWithFm := t.2.2
    if totalWithFm = 0 then none
    else if rulesCount + specsCount = 0 then none
    else if rulesCount > specsCount then
      some (.rules, if rulesCount = totalWithFm then .high else .medium,
        fmReason "rule" rulesCount totalWithFm)
    else if specsCount > rulesCount then
      some (.specs, if specsCount = totalWithFm then .high else .medium,
        fmReason "spec" specsCount totalWithFm)
    else none

/-- The `doc_type` value a file contributes to the tally, when it has
front matter (Python-truthy) with a `doc_type` key. -/
def fmDocType (content : String) : Option String :=
  match extract_front_matter content with
  | none => none
  | some fm => if fm.isEmpty then none else dictGet fm "doc_type"

/-- The doc_type values of all front-mattered files. -/
def fmDocTypes (files : List String) : List String := files.filterMap fmDocType

/-- Is a declared doc_type a rules term? -/
def isRuleDT (d : String) : Bool := RULE_FM_TYPES.contains (pyLower d)

/-- Is a declared doc_type a specs term (checked after the rules list, as
the source does)? -/
def isSpecDT (d : String) : Bool :=
  !isRuleDT d && SPEC_FM_TYPES.contains (pyLower d)

/-- The tally fold computes exactly the counts over `fmDocTypes`. -/
theorem fmTally_eq (files : List String) :
    ∀ a b c : Nat,
      files.foldl fmTallyStep (a, b, c) =
        (a + (fmDocTypes files).countP isRuleDT,
         b + (fmDocTypes files).countP isSpecDT,
         c + (fmDocTypes files).length) := by
  induction files with
  | nil => simp [fmDocTypes]
  | cons f fs ih =>
      intro a b c
      rw [List.foldl_cons]
      have hstep :
          fmTallyStep (a, b, c) f =
            match fmDocType f with
            | none => (a, b, c)
            | some d =>
                if isRuleDT d then (a + 1, b, c + 1)
                else if isSpecDT d then (a, b + 1, c + 1)
                else (a, b, c + 1) := by
        unfold fmTallyStep fmDocType
        cases extract_front_matter f with
        | none => rfl
        | some fm =>
            dsimp only
            by_cases hemp : fm.isEmpty
            · simp [hemp]
            · simp only [hemp, if_false, Bool.false_eq_true]
              cases dictGet fm "doc_type" with
              | none => rfl
              | some dt0 =>
                  dsimp only [isRuleDT, isSpecDT]
                  split_ifs <;> simp_all
      rw [hstep]
      cases hd : fmDocType f with
      | none =>
          dsimp only
          rw [ih a b c]
          have : fmDocTypes (f :: fs) = fmDocTypes fs := by
            unfold fmDocTypes
            rw [List.filterMap_cons, hd]
          rw [this]
      | some d =>
          dsimp only
          have hcons : fmDocTypes (f :: fs) = d :: fmDocTypes fs := by
            unfold fmDocTypes
            rw [List.filterMap_cons, hd]
          by_cases hr : isRuleDT d
          · simp only [hr, if_true]
            rw [ih (a + 1) b (c + 1), hcons]
            have hnspec : isSpecDT d = false := by
              unfold isSpecDT
              rw [hr]
              rfl
            simp [List.countP_cons, hr, hnspec]
            omega
          · by_cases hs : isSpecDT d
            · simp only [hr, hs, if_true, if_false, Bool.false_eq_true]
              rw [ih a (b + 1) (c + 1), hcons]
              simp [List.countP_cons, hr, hs]
              omega
            · simp only [hr, hs, if_false, Bool.false_eq_true]
              rw [ih a b (c + 1), hcons]
              simp [List.countP_cons, hr, hs]
              omega

/-- C6: the front-matter strategy is fully characterized by the counts
over the front-mattered files: the side whose count of recognized
doc_types strictly outnumbers the other wins; confidence is `high`
exactly when every front-mattered file agreed (the winner count equals
the number of files with a front-matter doc_type) and `medium` otherwise;
files without front matter or with unrecognized doc_type values are
excluded from the tally (they appear in neither count, though
unrecognized ones do count toward the agreement total); and an exact tie
— including the all-unrecognized case — yields no result. -/
theorem C6_frontmatter_strategy (files : List String) :
    classify_by_frontmatter files =
      (let dts := fmDocTypes files
       let rulesCount := dts.countP isRuleDT
       let specsCount := dts.countP isSpecDT
       let totalWithFm := dts.length
       if rulesCount > specsCount then
         some (.rules, if rulesCount = totalWithFm then .high else .medium,
           fmReason "rule" rulesCount totalWithFm)
       else if specsCount > rulesCount then
         some (.specs, if specsCount = totalWithFm then .high else .medium,
           fmReason "spec" specsCount totalWithFm)
       else none) := by
  unfold classify_by_frontmatter
  rw [fmTally_eq files 0 0 0]
  dsimp only
  by_cases hemp : files.isEmpty
  · have : fmDocTypes files = [] := by
      match files, hemp with
      | [], _ => rfl
    simp [hemp, this]
  · simp only [hemp, if_false, Bool.false_eq_true, Nat.zero_add]
    set dts := fmDocTypes files
    by_cases h0 : dts.length = 0
    · have hnil : dts = [] := List.length_eq_zero.mp h0
      simp [hnil]
    · have hr_le : dts.countP isRuleDT ≤ dts.length := List.countP_le_length _
      have hs_le : dts.countP isSpecDT ≤ dts.length := List.countP_le_length _
      by_cases hrs : dts.countP isRuleDT + dts.countP isSpecDT = 0
      · have hr0 : dts.countP isRuleDT = 0 := by omega
        have hs0 : dts.countP isSpecDT = 0 := by omega
        simp [h0, hrs, hr0, hs0]
      · simp only [h0, hrs, if_false]

/-- The term-ranking reason string. -/
def termReason (r s : Nat) : String :=
  s!"term_ranking: rule_score={r}, spec_score={s}"

/-- `classify_by_terms`, as a function of the per-file
`(rule_score, spec_score)` pairs produced by `score_file_terms` (the
regex-count boundary: each `.md` file's two scores are the inputs). -/
def classify_by_terms (scores : List (Nat × Nat)) :
    Option (Category × Confidence × String) :=
  if scores.isEmpty then none
  else
    let totalRule := (scores.map (·.1)).sum
    let totalSpec := (scores.map (·.2)).sum
    let total := totalRule + totalSpec
    if total = 0 then none
    else
      let ratio : ℚ :=
        if total > 0 then ((max totalRule totalSpec : Nat) : ℚ) / (total : ℚ) else 0
      if ratio < 0.6 then none
      else if totalRule > totalSpec then
        some (.rules, if ratio ≥ 0.75 then .high else .medium,
          termReason totalRule totalSpec)
      else
        some (.specs, if ratio ≥ 0.75 then .high else .medium,
          termReason totalRule totalSpec)

/-- C7: with rule score `R` and spec score `S`, there is no result when
`R + S = 0`, and for `R + S > 0` a classification is produced exactly
when `max(R,S)/(R+S) ≥ 0.60` — including equality at the boundary — with
the higher-scoring side as the category, confidence `high` when the share
is `≥ 0.75` and `medium` otherwise, and no result when the share is below
`0.60`. -/
theorem C7_term_ranking_threshold (scores : List (Nat × Nat)) :
    ((scores.map (·.1)).sum + (scores.map (·.2)).sum = 0 →
        classify_by_terms scores = none) ∧
      (0 < (scores.map (·.1)).sum + (scores.map (·.2)).sum →
        (classify_by_terms scores = none ↔
            5 * max ((scores.map (·.1)).sum) ((scores.map (·.2)).sum) <
              3 * ((scores.map (·.1)).sum + (scores.map (·.2)).sum)) ∧
          (3 * ((scores.map (·.1)).sum + (scores.map (·.2)).sum) ≤
              5 * max ((scores.map (·.1)).sum) ((scores.map (·.2)).sum) →
            classify_by_terms scores =
              some
                ((if (scores.map (·.1)).sum > (scores.map (·.2)).sum then
                    Category.rules
                  else Category.specs),
                  (if 3 * ((scores.map (·.1)).sum + (scores.map (·.2)).sum) ≤
                      4 * max ((scores.map (·.1)).sum) ((scores.map (·.2)).sum) then
                    Confidence.high
                  else Confidence.medium),
                  termReason ((scores.map (·.1)).sum) ((scores.map (·.2)).sum)))) := by
  refine ⟨fun h0 => ?_, fun hpos => ?_⟩
  · unfold classify_by_terms
    by_cases hemp : scores.isEmpty = true
    · rw [if_pos hemp]
    · rw [if_neg hemp]
      dsimp only
      rw [if_pos h0]
  set R := (scores.map (·.1)).sum with hR
  set S := (scores.map (·.2)).sum with hS
  have hne : scores.isEmpty = false := by
    cases scores with
    | nil =>
        rw [hR, hS] at hpos
        simp at hpos
    | cons x xs => rfl
  have ht : (0 : ℚ) < ((R + S : Nat) : ℚ) := by exact_mod_cast hpos
  have hlt :
      (((max R S : Nat) : ℚ) / ((R + S : Nat) : ℚ) < 0.6) ↔
        5 * max R S < 3 * (R + S) := by
    rw [div_lt_iff₀ ht, show (0.6 : ℚ) = 3 / 5 by norm_num,
      ← Nat.cast_lt (α := ℚ) (m := 5 * max R S) (n := 3 * (R + S))]
    push_cast
    constructor <;> intro h <;> linarith
  have hge :
      ((0.75 : ℚ) ≤ ((max R S : Nat) : ℚ) / ((R + S : Nat) : ℚ)) ↔
        3 * (R + S) ≤ 4 * max R S := by
    rw [le_div_iff₀ ht, show (0.75 : ℚ) = 3 / 4 by norm_num,
      ← Nat.cast_le (α := ℚ) (m := 3 * (R + S)) (n := 4 * max R S)]
    push_cast
    constructor <;> intro h <;> linarith
  unfold classify_by_terms
  rw [hne]
  simp only [Bool.false_eq_true, if_false, ← hR, ← hS]
  rw [if_neg (by omega : ¬(R + S = 0)), if_pos (by omega : R + S > 0)]
  constructor
  · by_cases hcase : ((max R S : Nat) : ℚ) / ((R + S : Nat) : ℚ) < 0.6
    · rw [if_pos hcase]
      simp [hlt.mp hcase]
    · rw [if_neg hcase]
      rw [hlt] at hcase
      split <;> simp [hcase]
  · intro hshare
    have hnlt : ¬(((max R S : Nat) : ℚ) / ((R + S : Nat) : ℚ) < 0.6) := by
      rw [hlt]
      omega
    rw [if_neg hnlt]
    by_cases hrs : R > S
    · rw [if_pos hrs, if_pos hrs]
      by_cases hhigh : (0.75 : ℚ) ≤ ((max R S : Nat) : ℚ) / ((R + S : Nat) : ℚ)
      · rw [if_pos hhigh, if_pos (hge.mp hhigh)]
      · rw [if_neg hhigh, if_neg (fun hc => hhigh (hge.mpr hc))]
    · rw [if_neg hrs, if_neg hrs]
      by_cases hhigh : (0.75 : ℚ) ≤ ((max R S : Nat) : ℚ) / ((R + S : Nat) : ℚ)
      · rw [if_pos hhigh, if_pos (hge.mp hhigh)]
      · rw [if_neg hhigh, if_neg (fun hc => hhigh (hge.mpr hc))]

/-- Witness for C7 at the exact `0.60` boundary: scores `(3, 2)` give
share `3/5`, which is classified (as rules, medium). -/
theorem C7_witness :
    (0 : Nat) < ([((3 : Nat), (2 : Nat))].map (·.1)).sum + ([((3 : Nat), (2 : Nat))].map (·.2)).sum ∧
      classify_by_terms [(3, 2)] =
        some (Category.rules, Confidence.medium, termReason 3 2) := by
  refine ⟨by decide, ?_⟩
  have h := ((C7_term_ranking_threshold [(3, 2)]).2 (by decide)).2 (by decide)
  simpa using h

/-! ## `classify_dirs.py` — the directory scanner (`find_md_dirs`)

The filesystem is modelled as a physical tree.  A symlink entry carries
only what `os.walk(..., followlinks=False)` can observe about it: its
name and whether `entry.is_dir()` (which follows links) reports a
directory.  Since the walker never follows links, symlink targets and
their contents never need to be represented; a dangling symlink is not
representable (it would be classified as a file-like entry), which no
claim depends on. -/

inductive FsNode where
  | file : FsNode
  | symlink (targetIsDir : Bool) : FsNode
  | dir (children : List (String × FsNode)) : FsNode
  deriving Repr

/-- `SKIP_DIRS`. -/
def SKIP_DIRS : List String :=
  [".git", ".claude", ".github", ".vscode", ".idea",
   "node_modules", "__pycache__", ".tox", ".mypy_cache",
   "venv", ".venv", "env", ".env",
   "dist", "build", "target", "out",
   ".next", ".nuxt", ".svelte-kit",
   "vendor", "Pods", ".gradle"]

/-- `SKIP_INDICATORS`. -/
def SKIP_INDICATORS : List String :=
  ["package.json", "Cargo.toml", "go.mod", "pom.xml", "setup.py", "pyproject.toml"]

/-- `entry.is_dir()` — follows symlinks. -/
def FsNode.isDirLike : FsNode → Bool
  | .dir _ => true
  | .symlink b => b
  | .file => false

/-- Is the entry a real (non-symlink) directory?  `os.walk` with
`followlinks=False` descends only into these. -/
def FsNode.isRealDir : FsNode → Bool
  | .dir _ => true
  | _ => false

/-- The in-place `dirnames[:]` filter of `find_md_dirs`: drop `SKIP_DIRS`
members and dot-prefixed names. -/
def keepDirname (n : String) : Bool :=
  !SKIP_DIRS.contains n && !pyStartsWith n "."

/-- Number of `.md` files directly inside (over `filenames`, i.e. the
entries `os.walk` classifies as non-directories). -/
def mdCountOf (children : List (String × FsNode)) : Nat :=
  (children.filter fun nc => !nc.2.isDirLike && pyEndsWith nc.1 ".md").length

/-- `any((current / ind).exists() for ind in SKIP_INDICATORS)`. -/
def hasIndicator (children : List (String × FsNode)) : Bool :=
  children.any fun nc => SKIP_INDICATORS.contains nc.1

mutual

/-- The fused `os.walk(root, followlinks=False)` loop of `find_md_dirs`
at one visited directory (`rel = []` is the root, reported as `'.'` and
skipped): filter `dirnames` in place, skip the root and
indicator-carrying directories, report a positive `.md` count, then
recurse — into real directories only, never into symlinks. -/
def walkNode : FsNode → List String → List (String × Nat)
  | .file, _ => []
  | .symlink _, _ => []
  | .dir children, rel =>
      (if rel = [] then []
       else if hasIndicator children then []
       else if 0 < mdCountOf children then [(joinSlash rel, mdCountOf children)]
       else [])
        ++ walkChildren children rel

/-- Descend into the (filtered) child directories in order. -/
def walkChildren : List (String × FsNode) → List String → List (String × Nat)
  | [], _ => []
  | (name, child) :: rest, rel =>
      (if keepDirname name && child.isRealDir then walkNode child (rel ++ [name])
       else [])
        ++ walkChildren rest rel

end

/-- `find_md_dirs(project_root)`. -/
def find_md_dirs (root : FsNode) : List (String × Nat) := walkNode root []

mutual

/-- The relative paths (as segment lists) of every directory the walk
visits. -/
def visitedNode : FsNode → List String → List (List String)
  | .file, _ => []
  | .symlink _, _ => []
  | .dir children, rel => rel :: visitedChildren children rel

def visitedChildren : List (String × FsNode) → List String → List (List String)
  | [], _ => []
  | (name, child) :: rest, rel =>
      (if keepDirname name && child.isRealDir then visitedNode child (rel ++ [name])
       else [])
        ++ visitedChildren rest rel

end

mutual

/-- Filesystem well-formedness: each directory's entry names are
distinct (as on a real filesystem). -/
def wfNode : FsNode → Bool
  | .file => true
  | .symlink _ => true
  | .dir children => ((children.map (·.1)).Nodup : Bool) && wfChildren children

def wfChildren : List (String × FsNode) → Bool
  | [] => true
  | (_, child) :: rest => wfNode child && wfChildren rest

end

/-- Membership in `walkChildren` comes from one child's walk. -/
theorem mem_walkChildren (children : List (String × FsNode)) (rel : List String)
    (p : String × Nat) :
    p ∈ walkChildren children rel ↔
      ∃ nc ∈ children, (keepDirname nc.1 && FsNode.isRealDir nc.2) = true ∧
        p ∈ walkNode nc.2 (rel ++ [nc.1]) := by
  induction children with
  | nil => simp [walkChildren]
  | cons nc rest ih =>
      obtain ⟨name, child⟩ := nc
      rw [walkChildren, List.mem_append, ih]
      constructor
      · rintro (hp | ⟨nc', hnc', hk, hp⟩)
        · split at hp
          · exact ⟨(name, child), List.mem_cons_self _ _, by assumption, hp⟩
          · simp at hp
        · exact ⟨nc', List.mem_cons_of_mem _ hnc', hk, hp⟩
      · rintro ⟨nc', hnc', hk, hp⟩
        rcases List.mem_cons.mp hnc' with rfl | hnc'
        · left
          rw [if_pos hk]
          exact hp
        · right
          exact ⟨nc', hnc', hk, hp⟩

/-- Membership in `visitedChildren` comes from one child's walk. -/
theorem mem_visitedChildren (children : List (String × FsNode)) (rel : List String)
    (p : List String) :
    p ∈ visitedChildren children rel ↔
      ∃ nc ∈ children, (keepDirname nc.1 && FsNode.isRealDir nc.2) = true ∧
        p ∈ visitedNode nc.2 (rel ++ [nc.1]) := by
  induction children with
  | nil => simp [visitedChildren]
  | cons nc rest ih =>
      obtain ⟨name, child⟩ := nc
      rw [visitedChildren, List.mem_append, ih]
      constructor
      · rintro (hp | ⟨nc', hnc', hk, hp⟩)
        · split at hp
          · exact ⟨(name, child), List.mem_cons_self _ _, by assumption, hp⟩
          · simp at hp
        · exact ⟨nc', List.mem_cons_of_mem _ hnc', hk, hp⟩
      · rintro ⟨nc', hnc', hk, hp⟩
        rcases List.mem_cons.mp hnc' with rfl | hnc'
        · left
          rw [if_pos hk]
          exact hp
        · right
          exact ⟨nc', hnc', hk, hp⟩

/-- Every path visited below a directory extends that directory's
path. -/
theorem visitedNode_self_prefix (t : FsNode) (rel p : List String)
    (h : p ∈ visitedNode t rel) : rel <+: p := by
  match t with
  | .file => simp [visitedNode] at h
  | .symlink b => simp [visitedNode] at h
  | .dir children =>
      rw [visitedNode] at h
      rcases List.mem_cons.mp h with rfl | h
      · exact List.prefix_refl _
      · rw [mem_visitedChildren] at h
        obtain ⟨⟨name, child⟩, hnc, -, hp⟩ := h
        have hlt : sizeOf child < sizeOf (FsNode.dir children) := by
          have h1 := List.sizeOf_lt_of_mem hnc
          simp only [Prod.mk.sizeOf_spec] at h1
          simp only [FsNode.dir.sizeOf_spec]
          omega
        have := visitedNode_self_prefix child (rel ++ [name]) p hp
        exact (List.prefix_append rel [name]).trans this
termination_by sizeOf t
decreasing_by
  exact hlt

/-- Index `l.length` of anything extending `l ++ [a]` is `a`. -/
theorem getElem_of_singleton_prefix (l : List String) (a : String) (p : List String)
    (h : (l ++ [a]) <+: p) : p[l.length]? = some a := by
  obtain ⟨t, rfl⟩ := h
  rw [List.append_assoc, List.getElem?_append_right (Nat.le_refl _)]
  simp

mutual

/-- On a well-formed tree the walk visits no directory path twice. -/
theorem visitedNode_nodup (t : FsNode) (rel : List String) (hwf : wfNode t = true) :
    (visitedNode t rel).Nodup := by
  match t with
  | .file => simp [visitedNode]
  | .symlink b => simp [visitedNode]
  | .dir children =>
      rw [wfNode, Bool.and_eq_true] at hwf
      rw [visitedNode, List.nodup_cons]
      refine ⟨?_, (visitedChildren_nodup children rel (of_decide_eq_true hwf.1) hwf.2).1⟩
      intro hmem
      rw [mem_visitedChildren] at hmem
      obtain ⟨⟨name, child⟩, hnc, -, hp⟩ := hmem
      have hpre := visitedNode_self_prefix child (rel ++ [name]) rel hp
      have := hpre.length_le
      simp at this

/-- The concatenated child walks have no duplicates, and each of their
paths extends its child's path. -/
theorem visitedChildren_nodup (children : List (String × FsNode)) (rel : List String)
    (hnames : (children.map (·.1)).Nodup) (hwf : wfChildren children = true) :
    (visitedChildren children rel).Nodup ∧
      ∀ p ∈ visitedChildren children rel, ∃ nc ∈ children, (rel ++ [nc.1]) <+: p := by
  match children with
  | [] => simp [visitedChildren]
  | (name, child) :: rest =>
      rw [wfChildren, Bool.and_eq_true] at hwf
      rw [List.map_cons, List.nodup_cons] at hnames
      obtain ⟨hrestNodup, hrestAll⟩ := visitedChildren_nodup rest rel hnames.2 hwf.2
      rw [visitedChildren]
      constructor
      · rw [List.nodup_append]
        refine ⟨?_, hrestNodup, ?_⟩
        · split
          · exact visitedNode_nodup child (rel ++ [name]) hwf.1
          · simp
        · intro p hp hq
          have hp' : p ∈ visitedNode child (rel ++ [name]) := by
            split at hp
            · exact hp
            · simp at hp
          have h1 : (rel ++ [name]) <+: p :=
            visitedNode_self_prefix child (rel ++ [name]) p hp'
          obtain ⟨nc, hnc, h2⟩ := hrestAll p hq
          have e1 := getElem_of_singleton_prefix rel name p h1
          have e2 := getElem_of_singleton_prefix rel nc.1 p h2
          have hname : name = nc.1 := Option.some.inj (e1.symm.trans e2)
          have hmem : nc.1 ∈ rest.map Prod.fst := List.mem_map_of_mem Prod.fst hnc
          rw [← hname] at hmem
          exact hnames.1 hmem
      · intro p hp
        rw [List.mem_append] at hp
        rcases hp with hp | hp
        · have hp' : p ∈ visitedNode child (rel ++ [name]) := by
            split at hp
            · exact hp
            · simp at hp
          exact ⟨(name, child), List.mem_cons_self _ _,
            visitedNode_self_prefix child (rel ++ [name]) p hp'⟩
        · obtain ⟨nc, hnc, h⟩ := hrestAll p hp
          exact ⟨nc, List.mem_cons_of_mem _ hnc, h⟩

end

/-- C3 (amended): the scanner never follows symlinks
(`os.walk(..., followlinks=False)`), so it terminates on every finite
tree regardless of symlink cycles (`visitedNode` is a total function) and
visits each directory path at most once: on a well-formed tree (distinct
entry names per directory, as on a real filesystem) the visited list has
no duplicates.  The original claim's mechanism — tracking canonicalized
real paths and visiting symlink-only-reachable directories exactly once —
is not what the code does: such directories are never visited at all (see
the counterexample). -/
theorem C3_scanner_visits_at_most_once (t : FsNode) (rel : List String)
    (hwf : wfNode t = true) : (visitedNode t rel).Nodup :=
  visitedNode_nodup t rel hwf

/-- The C3 counterexample tree: `node_modules/d1` holds a Markdown file
and a self-referential symlink (`self → d1`, a symlink cycle), and the
top-level symlink `link → node_modules/d1` is the only route a
link-following scan has to `d1`, because the physical route is pruned by
`SKIP_DIRS`. -/
def c3Tree : FsNode :=
  .dir [("node_modules", .dir [("d1", .dir [("a.md", .file), ("self", .symlink true)])]),
        ("link", .symlink true)]

/-- Counterexample to C3 as stated: the real directory `node_modules/d1`
— reachable by the scan only through the symlink `link`, and itself
carrying a symlink cycle — is visited zero times, not exactly once; the
scan visits only the root and reports nothing.  (A walker that tracked
canonicalized real paths and followed links, as the claim describes,
would visit it exactly once.) -/
theorem C3_counterexample :
    (visitedNode c3Tree []).count ["node_modules", "d1"] = 0 ∧
      visitedNode c3Tree [] = [[]] ∧ find_md_dirs c3Tree = [] := by
  refine ⟨by decide, by decide, by decide⟩

/-- Witness for C3 on a concrete well-formed tree. -/
theorem C3_witness :
    wfNode c3Tree = true ∧ (visitedNode c3Tree []).Nodup :=
  ⟨by decide, C3_scanner_visits_at_most_once c3Tree [] (by decide)⟩

/-- C2 (amended): the scanner does not shallow-stop.  A directory that is
reported (non-root, no project indicator, a positive Markdown count) does
not claim its subtree: any child subdirectory that survives the name
filter and itself has Markdown files and no indicator is reported as
well, in the same scan.  (Sibling subtrees are walked independently by
construction of `walkChildren`.) -/
theorem C2_descendants_still_reported (children : List (String × FsNode))
    (rel : List String) (hrel : rel ≠ [])
    (hind : hasIndicator children = false) (hmd : 0 < mdCountOf children)
    (name : String) (sub : List (String × FsNode))
    (hchild : (name, FsNode.dir sub) ∈ children) (hkeep : keepDirname name = true)
    (hindc : hasIndicator sub = false) (hmdc : 0 < mdCountOf sub) :
    (joinSlash rel, mdCountOf children) ∈ walkNode (.dir children) rel ∧
      (joinSlash (rel ++ [name]), mdCountOf sub) ∈ walkNode (.dir children) rel := by
  rw [walkNode]
  rw [if_neg hrel, if_neg (by simp [hind]), if_pos hmd]
  constructor
  · exact List.mem_append_left _ (List.mem_singleton_self _)
  · refine List.mem_append_right _ ?_
    rw [mem_walkChildren]
    refine ⟨(name, FsNode.dir sub), hchild, by simp [hkeep, FsNode.isRealDir], ?_⟩
    rw [walkNode]
    rw [if_neg (by simp), if_neg (by simp [hindc]), if_pos hmdc]
    exact List.mem_append_left _ (List.mem_singleton_self _)

/-- The C2 counterexample tree: `docs` has a Markdown file and a
subdirectory `docs/sub` which also has one. -/
def c2Tree : FsNode :=
  .dir [("docs", .dir [("a.md", .file), ("sub", .dir [("b.md", .file)])])]

/-- Counterexample to C2 as stated: the scan reports both `docs` and its
strict descendant `docs/sub` — the shallow-stop invariant (no reported
path is a strict descendant of another) does not hold. -/
theorem C2_counterexample :
    find_md_dirs c2Tree = [("docs", 1), ("docs/sub", 1)] ∧
      pyStartsWith "docs/sub" ("docs" ++ "/") = true ∧ "docs/sub" ≠ "docs" := by
  refine ⟨by decide, by decide, by decide⟩

/-- Witness for C2 at the `docs` node of the counterexample tree. -/
theorem C2_witness :
    ("docs", 1) ∈ walkNode (.dir [("a.md", FsNode.file), ("sub", .dir [("b.md", .file)])])
        ["docs"] ∧
      ("docs/sub", 1) ∈
        walkNode (.dir [("a.md", FsNode.file), ("sub", .dir [("b.md", .file)])]) ["docs"] :=
  C2_descendants_still_reported
    [("a.md", FsNode.file), ("sub", .dir [("b.md", .file)])] ["docs"] (by decide)
    (by decide) (by decide) "sub" [("b.md", FsNode.file)]
    (List.mem_cons_of_mem _ (List.mem_cons_self _ _)) (by decide) (by decide) (by decide)

end Kaizen
